import Mathlib

/-!
Shallow embedding of the Hoctail CLI client (`@hoctail/client`).

The definitions below translate the bundling utility (`src/utils.js`), the
environment-sync command (`src/Cli.js`) and the node client option / log
helpers (`src/NodeClient.js`) into Lean.  File-system access, the remote
wire-protocol and the module resolver are modelled as explicit parameters
(`FS`, `RemoteResult`, association lists), machine behaviour such as
JavaScript string truthiness (the empty string is falsy) is made explicit,
and fallible
code returns `Except`.
-/

set_option autoImplicit false

namespace Hoctail

/-! ### JavaScript string primitives -/

/-- JavaScript `String.prototype.replace` with a *string* pattern replaces
only the first occurrence of `pat` in the subject.  This is the list-level
worker, recursing over the subject string. -/
def listReplaceFirst (pat repl : List Char) : List Char → List Char
  | [] => if pat.isPrefixOf ([] : List Char) then repl else []
  | c :: cs =>
    if pat.isPrefixOf (c :: cs) then repl ++ (c :: cs).drop pat.length
    else c :: listReplaceFirst pat repl cs

/-- JavaScript `s.replace(pat, repl)` for a string pattern: first occurrence
only. -/
def jsReplace (s pat repl : String) : String :=
  String.mk (listReplaceFirst pat.data repl.data s.data)

/-- JavaScript `s.startsWith(pre)` (character-list level, so that concrete
instances evaluate inside the kernel). -/
def jsStartsWith (s pre : String) : Bool :=
  pre.data.isPrefixOf s.data

/-- JavaScript `s.toUpperCase()` on the ASCII keys handled by the CLI. -/
def jsToUpperCase (s : String) : String :=
  String.mk (s.data.map Char.toUpper)

/-- Model of `path.join(a, b)` on a POSIX system (`path.sep` is the slash
character), for the clean inputs used by the client. -/
def pathJoin (a b : String) : String :=
  a ++ "/" ++ b

/-- Model of `path.dirname`: everything before the last separator, a dot
when there is no separator, the root when the last separator is the leading
one. -/
def dirname (p : String) : String :=
  match (p.data.reverse).dropWhile (fun c => !(c = '/')) with
  | [] => "."
  | _ :: rest => if rest = [] then "/" else String.mk rest.reverse

/-- Model of `path.resolve(base, p)`: keep `p` when it is already absolute,
otherwise anchor it at `base`. -/
def jsPathResolve (base p : String) : String :=
  if jsStartsWith p "/" then p else base ++ "/" ++ p

/-! ### `src/utils.js`: the bundler configuration builder -/

/-- Package metadata loaded from a `package.json` manifest (the only field
the bundling code reads is `name`). -/
structure Pkg where
  name : String
  deriving DecidableEq, Repr

/-- The ambient file system and module resolver seen by `_getConfig` /
`findPkgDir`: `fs.existsSync`, `fs.lstatSync(..).isDirectory()`,
`require.resolve`, `require(pkgPath)` for manifests, the `pkgUp.sync` walk
of `pkg-up` (returning the manifest path), `os.tmpdir()` and the
process working directory. -/
structure FS where
  pathExists : String → Bool
  isDir : String → Bool
  requireResolve : String → Option String
  pkgJson : String → Pkg
  pkgUpSync : String → Option String
  tmpdir : String
  cwd : String

/-- Embedding of `_getOutputPath(dir)`: it joins `dir`, the `.hoctail`
cache directory and `bundle.js`. -/
def _getOutputPath (dir : String) : String :=
  pathJoin (pathJoin dir ".hoctail") "bundle.js"

/-- The `sourcemapPathTransform` closure built inside `_getConfig`:
it replaces the pattern `../` in `sourcePath` with `pkg.name + path.sep`,
via `String.replace`.  The closure captures
`pkg`, which is `null` when no manifest was found; evaluating `pkg.name`
then raises a `TypeError`, modelled as an error result. -/
def sourcemapPathTransform (pkg : Option Pkg) (sourcePath : String) :
    Except String String :=
  match pkg with
  | none => Except.error "TypeError: cannot read property name of null"
  | some p => Except.ok (jsReplace sourcePath "../" (p.name ++ "/"))

/-- Rollup `InputOptions` as built by `_getConfig` (the plugin list is fixed
and carries no data, so only the entry point and the external set are
modelled). -/
structure InputOptions where
  input : String
  external : List String
  deriving DecidableEq, Repr

/-- Rollup `OutputOptions` as built by `_getConfig` (the
`sourcemapPathTransform` closure is recovered from `Config.pkg` via
`sourcemapPathTransform`). -/
structure OutputOptions where
  file : String
  format : String
  exports : String
  sourcemap : String
  deriving DecidableEq, Repr

/-- The record returned by `_getConfig`. -/
structure Config where
  input : InputOptions
  output : OutputOptions
  pkg : Option Pkg
  deriving DecidableEq, Repr

/-- Embedding of `findPkgDir(main)`: throw when `main` does not exist,
otherwise walk up
with `pkg-up` from `main` (a directory) or its parent (a file) and return the
directory of the nearest manifest, or `null`. -/
def findPkgDir (fs : FS) (main : String) : Except String (Option String) :=
  if fs.pathExists main = false then
    Except.error ("Path " ++ main ++ " doesn\x27t exist")
  else
    let cwd := if fs.isDir main then main else dirname main
    match fs.pkgUpSync cwd with
    | some pkgPath => Except.ok (some (dirname pkgPath))
    | none => Except.ok none

/-- The shared tail of `_getConfig` (lines 115-144 of `utils.js`): resolve
the entry point against the working directory, require it to exist, and
assemble the rollup config with external set `installed`, format `cjs`,
exports `auto` and inline source maps. -/
def mkConfig (fs : FS) (inst : List String) (entryPoint0 outFile : String)
    (pkg : Option Pkg) : Except String Config :=
  let entryPoint := jsPathResolve fs.cwd entryPoint0
  if fs.pathExists entryPoint = false then
    Except.error ("Entry point " ++ entryPoint ++ " doesn\x27t exist")
  else
    Except.ok
      { input := { input := entryPoint, external := inst }
        output :=
          { file := outFile, format := "cjs", exports := "auto",
            sourcemap := "inline" }
        pkg := pkg }

/-- Embedding of `_getConfig(main)` from `src/utils.js`.  The module-level
`installed`
cache is passed explicitly; `if (!installed)` is `Option.isNone` because a
JavaScript array (even an empty one) is truthy.  In the file branch the
`findPkgDir` call is inlined: `main` is known to exist and to be a file, so
`pkg-up` runs from `dirname main`. -/
def _getConfig (fs : FS) (installed : Option (List String)) (main : String) :
    Except String Config :=
  match installed with
  | none => Except.error "Externals are not loaded yet"
  | some inst =>
    if fs.pathExists main = false then
      Except.error ("Path " ++ main ++ " doesn\x27t exist")
    else if fs.isDir main then
      let pkgPath := pathJoin main "package.json"
      if fs.pathExists pkgPath = false then
        Except.error ("Path " ++ pkgPath ++ " doesn\x27t exist")
      else
        let pkg := fs.pkgJson pkgPath
        let pkgDir := dirname pkgPath
        match fs.requireResolve pkgDir with
        | none => Except.error ("Cannot find an entry point in " ++ pkgPath)
        | some ep =>
          mkConfig fs inst (jsPathResolve pkgDir ep) (_getOutputPath main)
            (some pkg)
    else
      match fs.pkgUpSync (dirname main) with
      | some pkgPath =>
        let pkgDir := dirname pkgPath
        mkConfig fs inst main (_getOutputPath pkgDir)
          (some (fs.pkgJson (pathJoin pkgDir "package.json")))
      | none =>
        mkConfig fs inst main (_getOutputPath fs.tmpdir) none

/-! ### `src/utils.js`: the installed-module cache -/

/-- Outcome of the remote `npm.installed` call made through the client. -/
inductive RemoteResult where
  | ok (pkgs : List String)
  | err
  deriving DecidableEq, Repr

/-- Result of one `_loadInstalled` invocation: the new cache state, the
number of remote calls performed, and whether a failure was logged via
`console.log`. -/
structure LoadResult where
  state : Option (List String)
  calls : Nat
  logged : Bool
  deriving DecidableEq, Repr

/-- Embedding of `_loadInstalled(client)`: return at once when the cache is
populated
(`if (installed) return` — a JavaScript array is truthy even when empty);
otherwise perform the remote call, keep the entries that do not start with
a dot, and on failure log and swallow the error, leaving the cache empty. -/
def _loadInstalled (st : Option (List String)) (remote : RemoteResult) :
    LoadResult :=
  match st with
  | some l => { state := some l, calls := 0, logged := false }
  | none =>
    match remote with
    | RemoteResult.ok pkgs =>
      { state := some (pkgs.filter (fun item => !(jsStartsWith item ".")))
        calls := 1, logged := false }
    | RemoteResult.err => { state := none, calls := 1, logged := true }

/-- Embedding of `pack(main, client)` up to the hand-off to rollup: run
`_loadInstalled`
(which never throws), then build the config with `_getConfig` under the
resulting cache state.  Returns the config outcome together with the cache
state, remote-call count and log flag. -/
def pack (st : Option (List String)) (remote : RemoteResult) (fs : FS)
    (main : String) : Except String Config × LoadResult :=
  let r := _loadInstalled st remote
  (_getConfig fs r.state main, r)

/-! ### `src/utils.js`: the output plugin -/

/-- Embedding of `outputPlugin.generateBundle`: for every chunk id accepted
by the include/exclude filter, prepend the IIFE opener and append the IIFE
closer plus newline to the code of the chunk; leave the other chunks
untouched.  The bundle is modelled
as a list of `(id, code)` pairs and the `createFilter` result as a predicate
on ids. -/
def generateBundle (filter : String → Bool) (bundle : List (String × String)) :
    List (String × String) :=
  bundle.map fun p =>
    if filter p.1 then (p.1, "(function ()\x7b " ++ p.2 ++ "\x7d)()\n") else p

/-! ### `src/Cli.js`: environment synchronization -/

/-- Lookup in an association-list environment (a JavaScript object keyed by
variable name): the value at the first matching key. -/
def lookupEnv (env : List (String × String)) (k : String) : Option String :=
  (env.find? (fun p => p.1 = k)).map (fun p => p.2)

/-- Embedding of the `_getEnv` method of `Cli`: uppercase each key of the
parsed `.env` config
and drop the keys starting with `HOCTAIL_` (CLI-only configuration). -/
def _getEnv (config : List (String × String)) : List (String × String) :=
  config.filterMap fun p =>
    let k := jsToUpperCase p.1
    if jsStartsWith k "HOCTAIL_" then none else some (k, p.2)

/-- Set one key in the remote environment, overwriting an existing entry in
place or appending a new one. -/
def setKey (env : List (String × String)) (k v : String) :
    List (String × String) :=
  if env.any (fun p => p.1 = k) then
    env.map (fun p => if p.1 = k then (k, v) else p)
  else env ++ [(k, v)]

/-- Delete one key from the remote environment. -/
def delKey (env : List (String × String)) (k : String) :
    List (String × String) :=
  env.filter (fun p => !(p.1 = k))

/-- Modelled from the spec: `client.setEnv(local)` is the remote
environment-variable *set* operation of the wire-protocol client (the
implementation lives in the external `@hoctail/query` package) — it writes
every provided key/value pair into the remote state and touches nothing
else. -/
def setEnv (remote localEnv : List (String × String)) :
    List (String × String) :=
  localEnv.foldl (fun acc p => setKey acc p.1 p.2) remote

/-- Modelled from the spec: `client.delEnv(k)` is the remote
environment-variable *delete* operation (external `@hoctail/query`
package) — it removes the key from the remote state. -/
def delEnv (remote : List (String × String)) (k : String) :
    List (String × String) :=
  delKey remote k

/-- The `push` branch of the `env` command action in `Cli.js`: call
`setEnv(local)`, then for every key of the previously fetched remote state
whose local value is `null`/`undefined` (`local[k] == null`), call
`delEnv(k)`. -/
def envPush (remote localEnv : List (String × String)) :
    List (String × String) :=
  (remote.map (fun p => p.1)).foldl
    (fun acc k => if (lookupEnv localEnv k).isNone then delEnv acc k else acc)
    (setEnv remote localEnv)

/-! ### `src/NodeClient.js`: connection options and log tailing -/

/-- JavaScript `a || b` on option-typed strings: `none` models `undefined`,
`some ""` models the (falsy) empty string. -/
def jsOrOpt (a b : Option String) : Option String :=
  match a with
  | none => b
  | some s => if s = "" then b else some s

/-- JavaScript truthiness of an option-typed string. -/
def jsTruthy (a : Option String) : Bool :=
  match a with
  | none => false
  | some s => !(s = "")

/-- User-supplied options to `initOptions` (absent fields are `none`). -/
structure UserOptions where
  baseURL : Option String
  endpoint : Option String
  key : Option String
  app : Option String
  logLevel : Option String
  deriving DecidableEq, Repr

/-- The process environment variables read by `initOptions`. -/
structure EnvVars where
  HOCTAIL_ENDPOINT : Option String
  HOCTAIL_API_KEY : Option String
  HOCTAIL_APP : Option String
  HOCTAIL_LOG_LEVEL : Option String
  deriving DecidableEq, Repr

/-- The options record handed to the `@hoctail/query` constructor. -/
structure ClientOptions where
  baseURL : Option String
  key : Option String
  app : Option String
  schema : Option String
  logLevel : Option String
  deriving DecidableEq, Repr

/-- Embedding of `initOptions(options)` from `NodeClient.js`: fold each
field through the
`||` fallback chain (`baseURL || endpoint || HOCTAIL_ENDPOINT ||
the default endpoint literal`), derive `schema` (`public` exactly when the
app value is `null`/`undefined`, per the loose inequality in the source),
and throw
`No endpoint defined` when the resulting `baseURL` is falsy. -/
def initOptions (o : UserOptions) (env : EnvVars) :
    Except String ClientOptions :=
  let baseURL :=
    jsOrOpt (jsOrOpt (jsOrOpt o.baseURL o.endpoint) env.HOCTAIL_ENDPOINT)
      (some "wss://api.hoctail.io")
  let key := jsOrOpt o.key env.HOCTAIL_API_KEY
  let app := jsOrOpt o.app env.HOCTAIL_APP
  let logLevel := jsOrOpt o.logLevel env.HOCTAIL_LOG_LEVEL
  let schema : Option String :=
    match app with
    | none => some "public"
    | some _ => none
  if jsTruthy baseURL = false then
    Except.error "No endpoint defined, check config"
  else
    Except.ok
      { baseURL := baseURL, key := key, app := app, schema := schema,
        logLevel := logLevel }

/-- Model of `Number.isSafeInteger` on an integer-valued argument:
`|n| ≤ 2^53 - 1`. -/
def isSafeInteger (n : Int) : Bool :=
  n.natAbs ≤ 2 ^ 53 - 1

/-- The SQL query issued by `tailLogs`: the validated limit interpolated
into the `limit` clause and the parsed log level passed as parameter. -/
structure LogQuery where
  limit : Int
  level : Nat
  deriving DecidableEq, Repr

/-- Embedding of `tailLogs(latestLogsNumber, logLevel)` from
`NodeClient.js`: throw
`Number of log lines should be integer > 0` when
`!Number.isSafeInteger(n) || Math.abs(n) !== n`, i.e. when `n` is not a safe
integer or is negative (`Math.abs(n) !== n` on an integer is exactly
`n < 0`); otherwise issue the query with `limit n`. -/
def tailLogs (n : Int) (logLevel : Nat) : Except String LogQuery :=
  if !(isSafeInteger n) || !((n.natAbs : Int) = n) then
    Except.error "Number of log lines should be integer > 0"
  else
    Except.ok { limit := n, level := logLevel }

/-! ### Concrete fixtures used by witnesses and counterexamples -/

deriving instance DecidableEq for Except

/-- A file system holding a single source file `/home/u/solo.js` with no
`package.json` anywhere above it, plus the temp directory. -/
def fsNM : FS where
  pathExists := fun p => p = "/home/u/solo.js" || p = "/tmp"
  isDir := fun p => p = "/tmp"
  requireResolve := fun _ => none
  pkgJson := fun _ => { name := "unused" }
  pkgUpSync := fun _ => none
  tmpdir := "/tmp"
  cwd := "/home/u"

/-- The configuration `_getConfig` builds for `/home/u/solo.js` on `fsNM`
with installed set `["fs"]`. -/
def cfgNM : Config where
  input := { input := "/home/u/solo.js", external := ["fs"] }
  output :=
    { file := "/tmp/.hoctail/bundle.js", format := "cjs", exports := "auto",
      sourcemap := "inline" }
  pkg := none

/-- A file system holding a package directory `/proj` with a manifest and an
entry point `/proj/index.js` that module resolution finds. -/
def fsDir : FS where
  pathExists := fun p =>
    p = "/proj" || p = "/proj/package.json" || p = "/proj/index.js"
  isDir := fun p => p = "/proj"
  requireResolve := fun p => if p = "/proj" then some "/proj/index.js" else none
  pkgJson := fun p =>
    if p = "/proj/package.json" then { name := "proj" } else { name := "?" }
  pkgUpSync := fun _ => none
  tmpdir := "/tmp"
  cwd := "/w"

/-! ### Helper lemmas -/

theorem dropWhile_append_of_all {α : Type} (p : α → Bool) (l₁ l₂ : List α)
    (h : ∀ c ∈ l₁, p c = true) :
    (l₁ ++ l₂).dropWhile p = l₂.dropWhile p := by
  induction l₁ with
  | nil => rfl
  | cons c cs ih =>
    simp only [List.cons_append, List.dropWhile, h c (by simp)]
    exact ih (fun x hx => h x (by simp [hx]))

theorem data_ne_nil_of_ne_empty (a : String) (ha : a ≠ "") : a.data ≠ [] := by
  intro hd
  exact ha (String.ext hd)

/-- Composition law: `dirname (pathJoin a b) = a` when the joined component
contains no
separator and `a` is nonempty. -/
theorem dirname_pathJoin (a b : String) (ha : a ≠ "")
    (hb : b.data.all (fun c => !(c = '/')) = true) :
    dirname (pathJoin a b) = a := by
  have hslash : ("/" : String).data = ['/'] := rfl
  have hdata : (pathJoin a b).data = a.data ++ '/' :: b.data := by
    simp [pathJoin, String.data_append, hslash]
  unfold dirname
  rw [hdata, List.reverse_append, List.reverse_cons, List.append_assoc]
  rw [dropWhile_append_of_all _ (b.data.reverse) _
    (fun c hc => by
      have := List.all_eq_true.mp hb c (List.mem_reverse.mp hc)
      simpa using this)]
  have hstop :
      List.dropWhile (fun c => !(c = '/')) (['/'] ++ a.data.reverse) =
        '/' :: a.data.reverse := by
    simp [List.dropWhile_cons]
  rw [hstop]
  have hnil : a.data.reverse ≠ [] := by
    simpa using data_ne_nil_of_ne_empty a ha
  dsimp only
  rw [if_neg hnil]
  exact String.ext (by simp)

theorem mkConfig_ok_external (fs : FS) (inst : List String) (e o : String)
    (pkg : Option Pkg) (c : Config)
    (h : mkConfig fs inst e o pkg = Except.ok c) :
    c.input.external = inst := by
  simp only [mkConfig] at h
  split at h
  · exact absurd h (by simp)
  · injection h with h
    subst h
    rfl

/-! ### Claim theorems -/

/-- Claim C1, counterexample.  After a failed remote fetch the cache is
indeed empty and the failure was logged and swallowed, but a subsequent
`pack` does *not* proceed with an empty external set: `_getConfig` throws
`Externals are not loaded yet`.  The third conjunct shows the same call
would have succeeded had the cache actually held an empty set, so the
failure is caused precisely by the unpopulated cache. -/
theorem pack_failed_fetch_counterexample :
    (pack none RemoteResult.err fsNM "/home/u/solo.js").1 =
        Except.error "Externals are not loaded yet" ∧
    (pack none RemoteResult.err fsNM "/home/u/solo.js").2 =
        { state := none, calls := 1, logged := true } ∧
    _getConfig fsNM (some ([] : List String)) "/home/u/solo.js" =
        Except.ok
          { input := { input := "/home/u/solo.js", external := [] }
            output :=
              { file := "/tmp/.hoctail/bundle.js", format := "cjs",
                exports := "auto", sourcemap := "inline" }
            pkg := none } :=
  ⟨rfl, rfl, by decide⟩

/-- Claim C1 (amended): when the remote `npm.installed` fetch fails, the
failure is logged and swallowed and the cache remains empty, but a
subsequent `pack` call fails with `Externals are not loaded yet` instead of
proceeding with an empty external set. -/
theorem pack_failed_fetch_amended (fs : FS) (main : String) :
    pack none RemoteResult.err fs main =
      (Except.error "Externals are not loaded yet",
        { state := none, calls := 1, logged := true }) :=
  rfl

/-- Claim C2 (code bug): for a file input with no enclosing manifest,
`_getConfig` does build the configuration the claim describes — null package
metadata and the output file under the system temp directory — but that
sourcemapPathTransform closure of that configuration evaluates `pkg.name`
with
`pkg = null`, so every invocation of it during the bundle write raises a
`TypeError` and `pack` fails instead of succeeding. -/
theorem pack_no_manifest_code_bug :
    _getConfig fsNM (some ["fs"]) "/home/u/solo.js" = Except.ok cfgNM ∧
    cfgNM.pkg = none ∧
    cfgNM.output.file = _getOutputPath fsNM.tmpdir ∧
    ∀ sourcePath, sourcemapPathTransform cfgNM.pkg sourcePath =
        Except.error "TypeError: cannot read property name of null" :=
  ⟨by decide, rfl, rfl, fun _ => rfl⟩

/-- Claim C3, counterexample.  On the source path `../../a.js` the transform
rewrites only the first `../`; the second one survives verbatim in the
output, so not every parent-directory segment is rewritten. -/
theorem sourcemap_transform_counterexample :
    sourcemapPathTransform (some { name := "p" }) "../../a.js" =
        Except.ok "p/../a.js" ∧
    List.IsInfix ("../".data) ("p/../a.js".data) := by
  refine ⟨by decide, ?_⟩
  exact ⟨"p/".data, "a.js".data, by decide⟩

/-- Claim C3 (amended): only the *first* occurrence of `../` in a generated
source-map source path is replaced by the resolved package name followed by
the path separator (JavaScript `String.replace` with a string pattern
replaces a single occurrence); the rest of the path, including any further
`../` segments, is left unchanged. -/
theorem sourcemap_transform_first_only (p : Pkg) (t : List Char) :
    sourcemapPathTransform (some p) (String.mk ('.' :: '.' :: '/' :: t)) =
      Except.ok (String.mk (p.name.data ++ '/' :: t)) := by
  simp only [sourcemapPathTransform, jsReplace]
  have hpat : ("../" : String).data = ['.', '.', '/'] := rfl
  have hrepl : (p.name ++ "/").data = p.name.data ++ ['/'] := by
    rw [String.data_append]
  have hpre :
      List.isPrefixOf ['.', '.', '/'] ('.' :: '.' :: '/' :: t) = true :=
    List.isPrefixOf_iff_prefix.mpr ⟨t, rfl⟩
  simp [hpat, hrepl, listReplaceFirst, hpre, List.append_assoc]

/-- Claim C4: starting from an empty cache, a first successful
`_loadInstalled` performs one remote fetch and stores the filtered module
set; a second call (whatever its remote would answer) performs no fetch and
observes the same cached set. -/
theorem loadInstalled_idempotent (pkgs : List String) (r2 : RemoteResult) :
    (_loadInstalled none (RemoteResult.ok pkgs)).calls = 1 ∧
    (_loadInstalled none (RemoteResult.ok pkgs)).state =
      some (pkgs.filter (fun item => !(jsStartsWith item "."))) ∧
    _loadInstalled (_loadInstalled none (RemoteResult.ok pkgs)).state r2 =
      { state := (_loadInstalled none (RemoteResult.ok pkgs)).state,
        calls := 0, logged := false } :=
  ⟨rfl, rfl, rfl⟩

/-- Claim C5: whenever `_getConfig` returns a configuration, its rollup
input has an `external` set exactly equal to the installed-module set the
cache held at
config-build time, so every cached module identifier is passed as
external. -/
theorem getConfig_external_eq_installed (fs : FS) (inst : List String)
    (main : String) (c : Config)
    (h : _getConfig fs (some inst) main = Except.ok c) :
    c.input.external = inst ∧ ∀ m ∈ inst, m ∈ c.input.external := by
  have hext : c.input.external = inst := by
    simp only [_getConfig] at h
    split at h
    · exact absurd h (by simp)
    · split at h
      · split at h
        · exact absurd h (by simp)
        · split at h
          · exact absurd h (by simp)
          · exact mkConfig_ok_external _ _ _ _ _ _ h
      · split at h
        · exact mkConfig_ok_external _ _ _ _ _ _ h
        · exact mkConfig_ok_external _ _ _ _ _ _ h
  exact ⟨hext, fun m hm => hext ▸ hm⟩

/-- Witness for claim C5 at a concrete file system. -/
theorem getConfig_external_eq_installed_witness :
    cfgNM.input.external = ["fs"] ∧ "fs" ∈ cfgNM.input.external :=
  ⟨(getConfig_external_eq_installed fsNM ["fs"] "/home/u/solo.js" cfgNM
      (by decide)).1,
    (getConfig_external_eq_installed fsNM ["fs"] "/home/u/solo.js" cfgNM
      (by decide)).2 "fs" (by simp)⟩

/-- Claim C9: `initOptions` always succeeds with a truthy (non-empty)
`baseURL` — the `||` fallback chain ends in the non-empty literal
`wss://api.hoctail.io` — so the `No endpoint defined` branch is unreachable;
with no option and no environment variable set, the default endpoint is
returned. -/
theorem initOptions_baseURL_total :
    (∀ (o : UserOptions) (env : EnvVars), ∃ r,
        initOptions o env = Except.ok r ∧ jsTruthy r.baseURL = true) ∧
    (∃ r,
        initOptions ⟨none, none, none, none, none⟩ ⟨none, none, none, none⟩ =
            Except.ok r ∧
          r.baseURL = some "wss://api.hoctail.io") := by
  constructor
  · intro o env
    have hT :
        jsTruthy
            (jsOrOpt
              (jsOrOpt (jsOrOpt o.baseURL o.endpoint) env.HOCTAIL_ENDPOINT)
              (some "wss://api.hoctail.io")) =
          true := by
      cases jsOrOpt (jsOrOpt o.baseURL o.endpoint) env.HOCTAIL_ENDPOINT with
      | none => rfl
      | some s =>
        by_cases h : s = "" <;> simp [jsOrOpt, jsTruthy, h]
    simp only [initOptions, hT]
    exact ⟨_, rfl, hT⟩
  · exact ⟨_, rfl, rfl⟩

/-- Claim C10: `tailLogs(n, level)` throws
`Number of log lines should be integer > 0` exactly when `n` is not a safe
integer or is negative; `n = 0` passes the validation and the query is
issued with `limit 0`. -/
theorem tailLogs_validation :
    (∀ (n : Int) (lvl : Nat),
        tailLogs n lvl =
            Except.error "Number of log lines should be integer > 0" ↔
          isSafeInteger n = false ∨ n < 0) ∧
    ∀ lvl, tailLogs 0 lvl = Except.ok { limit := 0, level := lvl } := by
  constructor
  · intro n lvl
    by_cases hneg : n < 0
    · have hcond : (!(isSafeInteger n) || !((n.natAbs : Int) = n)) = true := by
        have h : (decide ((n.natAbs : Int) = n)) = false := by
          rw [decide_eq_false_iff_not]
          omega
        rw [h]
        simp
      simp only [tailLogs, hcond, if_true]
      simp only [eq_self_iff_true, true_iff]
      exact Or.inr hneg
    · cases hsafe : isSafeInteger n with
      | true =>
        have hcond :
            (!(isSafeInteger n) || !((n.natAbs : Int) = n)) = false := by
          have h : (decide ((n.natAbs : Int) = n)) = true := by
            rw [decide_eq_true_eq]
            omega
          rw [h, hsafe]
          rfl
        simp [tailLogs, hcond, hsafe, hneg]
      | false =>
        have hcond : (!(isSafeInteger n) || !((n.natAbs : Int) = n)) = true := by
          rw [hsafe]
          rfl
        simp [tailLogs, hcond, hsafe]
  · intro lvl
    rfl

/-- Claim C6: on a directory input, `_getConfig` requires `package.json`
directly inside `main` and fails with a `doesn\x27t exist` error when it is
absent; otherwise it resolves the entry point by module resolution on the
directory itself, sets the output file to `<main>/.hoctail/bundle.js`, and
fails with a `doesn\x27t exist` error when `main` itself or the resolved
entry point is missing from disk. -/
theorem getConfig_directory_spec (fs : FS) (inst : List String)
    (main : String) (hne : main ≠ "") (hdir : fs.isDir main = true) :
    (fs.pathExists main = false →
        _getConfig fs (some inst) main =
          Except.error ("Path " ++ main ++ " doesn\x27t exist")) ∧
    (fs.pathExists main = true →
      (fs.pathExists (pathJoin main "package.json") = false →
          _getConfig fs (some inst) main =
            Except.error
              ("Path " ++ pathJoin main "package.json" ++
                " doesn\x27t exist")) ∧
      (fs.pathExists (pathJoin main "package.json") = true →
        ∀ ep, fs.requireResolve main = some ep →
          (fs.pathExists (jsPathResolve fs.cwd (jsPathResolve main ep)) =
              false →
            _getConfig fs (some inst) main =
              Except.error
                ("Entry point " ++
                  jsPathResolve fs.cwd (jsPathResolve main ep) ++
                  " doesn\x27t exist")) ∧
          (fs.pathExists (jsPathResolve fs.cwd (jsPathResolve main ep)) =
              true →
            _getConfig fs (some inst) main =
              Except.ok
                { input :=
                    { input := jsPathResolve fs.cwd (jsPathResolve main ep)
                      external := inst }
                  output :=
                    { file := pathJoin (pathJoin main ".hoctail") "bundle.js"
                      format := "cjs", exports := "auto",
                      sourcemap := "inline" }
                  pkg := some (fs.pkgJson (pathJoin main "package.json")) }))) := by
  have hdname : dirname (pathJoin main "package.json") = main :=
    dirname_pathJoin main "package.json" hne (by decide)
  refine ⟨?_, ?_⟩
  · intro hex
    simp [_getConfig, hex]
  · intro hex
    refine ⟨?_, ?_⟩
    · intro hpkg
      simp [_getConfig, hex, hdir, hpkg]
    · intro hpkg ep hep
      refine ⟨?_, ?_⟩
      · intro hent
        simp [_getConfig, hex, hdir, hpkg, hdname, hep, mkConfig, hent]
      · intro hent
        simp [_getConfig, hex, hdir, hpkg, hdname, hep, mkConfig, hent,
          _getOutputPath]

/-- Witness for claim C6 on a concrete package directory. -/
theorem getConfig_directory_spec_witness :
    ("/proj" : String) ≠ "" ∧ fsDir.isDir "/proj" = true ∧
    _getConfig fsDir (some ["fs"]) "/proj" =
      Except.ok
        { input := { input := "/proj/index.js", external := ["fs"] }
          output :=
            { file := "/proj/.hoctail/bundle.js", format := "cjs",
              exports := "auto", sourcemap := "inline" }
          pkg := some { name := "proj" } } :=
  ⟨by decide, by decide,
    (((getConfig_directory_spec fsDir ["fs"] "/proj" (by decide)
        (by decide)).2 (by decide)).2 (by decide) "/proj/index.js"
      (by decide)).2 (by decide)⟩

/-- Claim C7: after bundle generation every chunk whose id passes the
include/exclude filter appears wrapped in exactly one IIFE — the opener
the function-expression opener prepended and the invocation closer (plus
newline) appended around the
original code — while chunks that fail the filter are unchanged; no chunk is
added or dropped. -/
theorem generateBundle_wraps_matching (flt : String → Bool)
    (bundle : List (String × String)) (cid code : String)
    (hmem : (cid, code) ∈ bundle) :
    (generateBundle flt bundle).length = bundle.length ∧
    (flt cid = true →
        (cid, "(function ()\x7b " ++ code ++ "\x7d)()\n") ∈
          generateBundle flt bundle) ∧
    (flt cid = false → (cid, code) ∈ generateBundle flt bundle) := by
  refine ⟨List.length_map _ _, ?_, ?_⟩
  · intro hf
    have h := List.mem_map_of_mem
      (fun p : String × String =>
        if flt p.1 then (p.1, "(function ()\x7b " ++ p.2 ++ "\x7d)()\n") else p)
      hmem
    simpa [generateBundle, hf] using h
  · intro hf
    have h := List.mem_map_of_mem
      (fun p : String × String =>
        if flt p.1 then (p.1, "(function ()\x7b " ++ p.2 ++ "\x7d)()\n") else p)
      hmem
    simpa [generateBundle, hf] using h

/-- Witness for claim C7 on a concrete two-chunk bundle. -/
theorem generateBundle_wraps_matching_witness :
    ("main.js", "var x = 1") ∈
        [("main.js", "var x = 1"), ("skip.css", "body")] ∧
    (fun i => i = "main.js") "main.js" = true ∧
    ("main.js", "(function ()\x7b var x = 1\x7d)()\n") ∈
      generateBundle (fun i => i = "main.js")
        [("main.js", "var x = 1"), ("skip.css", "body")] :=
  ⟨by simp, by decide,
    (generateBundle_wraps_matching (fun i => i = "main.js")
        [("main.js", "var x = 1"), ("skip.css", "body")] "main.js"
        "var x = 1" (by simp)).2.1 (by decide)⟩

/-! ### Environment-sync lemmas -/

theorem lookupEnv_cons (p : String × String) (rest : List (String × String))
    (k : String) :
    lookupEnv (p :: rest) k = if p.1 = k then some p.2 else lookupEnv rest k := by
  by_cases hp : p.1 = k
  · simp [lookupEnv, List.find?_cons, hp]
  · simp [lookupEnv, List.find?_cons, hp]

theorem lookup_map_setfun_ne (env : List (String × String)) (k0 v k : String)
    (h : k ≠ k0) :
    lookupEnv (env.map (fun p => if p.1 = k0 then (k0, v) else p)) k =
      lookupEnv env k := by
  induction env with
  | nil => rfl
  | cons p rest ih =>
    by_cases hp : p.1 = k0
    · have h2 : ¬(p.1 = k) := by
        rw [hp]
        exact fun hk => h (hk.symm)
      rw [List.map_cons, if_pos hp, lookupEnv_cons, lookupEnv_cons]
      rw [if_neg (fun hk => h (hk.symm)), if_neg h2]
      exact ih
    · rw [List.map_cons, if_neg hp, lookupEnv_cons, lookupEnv_cons]
      by_cases hk : p.1 = k
      · rw [if_pos hk, if_pos hk]
      · rw [if_neg hk, if_neg hk]
        exact ih

theorem lookup_append_single_ne (env : List (String × String))
    (k0 v k : String) (h : k ≠ k0) :
    lookupEnv (env ++ [(k0, v)]) k = lookupEnv env k := by
  unfold lookupEnv
  rw [List.find?_append]
  have h1 : List.find? (fun p => p.1 = k) [(k0, v)] = none := by
    simp only [List.find?]
    have : ¬((k0, v).1 = k) := fun hk => h (hk.symm)
    simp [this]
  rw [h1]
  cases env.find? (fun p => p.1 = k) <;> rfl

theorem lookup_setKey_ne (env : List (String × String)) (k0 v k : String)
    (h : k ≠ k0) :
    lookupEnv (setKey env k0 v) k = lookupEnv env k := by
  unfold setKey
  split
  · exact lookup_map_setfun_ne env k0 v k h
  · exact lookup_append_single_ne env k0 v k h

theorem lookup_setEnv_of_none (localEnv : List (String × String))
    (remote : List (String × String)) (k : String)
    (h : lookupEnv localEnv k = none) :
    lookupEnv (setEnv remote localEnv) k = lookupEnv remote k := by
  induction localEnv generalizing remote with
  | nil => rfl
  | cons p rest ih =>
    rw [lookupEnv_cons] at h
    have hp : ¬(p.1 = k) := by
      intro hk
      rw [if_pos hk] at h
      cases h
    rw [if_neg hp] at h
    simp only [setEnv, List.foldl_cons]
    have hind := ih (setKey remote p.1 p.2) h
    simp only [setEnv] at hind
    rw [hind]
    exact lookup_setKey_ne remote p.1 p.2 k (fun hk => hp (hk.symm))

theorem lookup_delKey_self (env : List (String × String)) (k : String) :
    lookupEnv (delKey env k) k = none := by
  induction env with
  | nil => rfl
  | cons p rest ih =>
    by_cases hp : p.1 = k
    · simp only [delKey, List.filter_cons]
      rw [if_neg (by simp [hp])]
      simpa [delKey] using ih
    · simp only [delKey, List.filter_cons]
      rw [if_pos (by simp [hp])]
      rw [lookupEnv_cons, if_neg hp]
      simpa [delKey] using ih

theorem lookup_delKey_none (env : List (String × String)) (k0 k : String)
    (h : lookupEnv env k = none) :
    lookupEnv (delKey env k0) k = none := by
  induction env with
  | nil => rfl
  | cons p rest ih =>
    rw [lookupEnv_cons] at h
    have hp : ¬(p.1 = k) := by
      intro hk
      rw [if_pos hk] at h
      cases h
    rw [if_neg hp] at h
    by_cases hp0 : p.1 = k0
    · simp only [delKey, List.filter_cons]
      rw [if_neg (by simp [hp0])]
      simpa [delKey] using ih h
    · simp only [delKey, List.filter_cons]
      rw [if_pos (by simp [hp0])]
      rw [lookupEnv_cons, if_neg hp]
      simpa [delKey] using ih h

theorem fold_del_preserve_none (localEnv : List (String × String))
    (ks : List String) (acc : List (String × String)) (k : String)
    (h : lookupEnv acc k = none) :
    lookupEnv
        (ks.foldl
          (fun acc k0 =>
            if (lookupEnv localEnv k0).isNone then delEnv acc k0 else acc)
          acc)
        k =
      none := by
  induction ks generalizing acc with
  | nil => exact h
  | cons k0 rest ih =>
    simp only [List.foldl_cons]
    apply ih
    by_cases hk : (lookupEnv localEnv k0).isNone
    · rw [if_pos hk]
      exact lookup_delKey_none acc k0 k h
    · rw [if_neg hk]
      exact h

theorem fold_del_deletes (localEnv : List (String × String))
    (ks : List String) (acc : List (String × String)) (k : String)
    (hmem : k ∈ ks) (h : lookupEnv localEnv k = none) :
    lookupEnv
        (ks.foldl
          (fun acc k0 =>
            if (lookupEnv localEnv k0).isNone then delEnv acc k0 else acc)
          acc)
        k =
      none := by
  induction ks generalizing acc with
  | nil => cases hmem
  | cons k0 rest ih =>
    simp only [List.foldl_cons]
    by_cases hk : k = k0
    · subst hk
      apply fold_del_preserve_none
      rw [if_pos (by simp [h])]
      exact lookup_delKey_self acc k
    · rcases List.mem_cons.mp hmem with h1 | h2
      · exact absurd h1 hk
      · exact ih
          (if (lookupEnv localEnv k0).isNone then delEnv acc k0 else acc) h2

/-- Claim C8: `env push` with the local `.env` `{A: "1", HOCTAIL_KEY: "x"}`
against remote state `{A: "0", B: "2"}` yields remote state `{A: "1"}`;
no key produced by the local filter starts with `HOCTAIL_` (so such keys
are never sent), and every remote key absent from the filtered local set is
deleted. -/
theorem envPush_spec :
    envPush [("A", "0"), ("B", "2")]
        (_getEnv [("A", "1"), ("HOCTAIL_KEY", "x")]) =
      [("A", "1")] ∧
    (∀ cfg k v, (k, v) ∈ _getEnv cfg → jsStartsWith k "HOCTAIL_" = false) ∧
    (∀ remote localEnv k, lookupEnv localEnv k = none →
        lookupEnv (envPush remote localEnv) k = none) := by
  refine ⟨by decide, ?_, ?_⟩
  · intro cfg k v hmem
    unfold _getEnv at hmem
    rw [List.mem_filterMap] at hmem
    obtain ⟨a, _, hfa⟩ := hmem
    by_cases h : jsStartsWith (jsToUpperCase a.1) "HOCTAIL_" = true
    · simp [h] at hfa
    · rw [Bool.not_eq_true] at h
      rw [if_neg (by simp [h])] at hfa
      injection hfa with hfa2
      have hk : jsToUpperCase a.1 = k := congrArg Prod.fst hfa2
      rw [← hk]
      exact h
  · intro remote localEnv k h
    unfold envPush
    cases hr : lookupEnv remote k with
    | none =>
      apply fold_del_preserve_none
      rw [lookup_setEnv_of_none localEnv remote k h, hr]
    | some v =>
      apply fold_del_deletes
      · unfold lookupEnv at hr
        cases hf : remote.find? (fun p => p.1 = k) with
        | none =>
          rw [hf] at hr
          cases hr
        | some p =>
          have hpk : p.1 = k := by
            have := List.find?_some hf
            simpa using this
          have hm := List.mem_of_find?_eq_some hf
          rw [← hpk]
          exact List.mem_map_of_mem (fun q => q.1) hm
      · exact h

/-- Witness for the universal parts of claim C8: key `B` is absent from the
local
set and disappears from the pushed remote state. -/
theorem envPush_spec_witness :
    lookupEnv [("A", "1")] "B" = none ∧
    lookupEnv (envPush [("A", "0"), ("B", "2")] [("A", "1")]) "B" = none :=
  ⟨by decide,
    envPush_spec.2.2 [("A", "0"), ("B", "2")] [("A", "1")] "B" (by decide)⟩

end Hoctail
